import Mathlib

/-!
# Verification of crabwise (src/main.rs)

Shallow embedding of the crabwise USB benchmark utility. Machine integers
(`u64`) are modelled as `Nat` with explicit `% 2^64` where overflow matters;
fallible operations return `Option`/`Except`. The `f64` values appearing in
the speed computations are modelled as exact rationals extended with the IEEE
special values (`+inf`, `-inf`, `NaN`); rounding of finite values is not
modelled, because the claims under scrutiny concern only zero-divisor
behaviour and exact scaling by 8 (a power of two).
-/

/-! ## Size parsing (src/main.rs, `parse_size`, lines 77-89)

```rust
fn parse_size(s: &str) -> u64 {
    let (num, suf) = s.trim().split_at(
        s.trim().find(|c: char| !c.is_ascii_digit()).unwrap_or(s.len()));
    let n: u64 = num.parse().expect("invalid size");
    let mult = match suf.trim().to_ascii_uppercase().as_str() {
        "" => 1,
        "K" | "KB" => 1024,
        "M" | "MB" => 1024*1024,
        "G" | "GB" => 1024*1024*1024,
        _ => panic!("unsupported size suffix"),
    };
    n * mult
}
```

A process-terminating outcome (a failed `expect`, the suffix `panic`, or the
out-of-bounds `split_at` described below) is modelled as `none`. Strings are
modelled as `List Char`; the inputs of interest are ASCII, where Rust byte
indices and the character indices used here coincide, and where Rust's
Unicode `char::is_whitespace` agrees with `Char.isWhitespace`.

When the trimmed input is all digits, `find` returns `None` and the code
splits at `s.len()` — the length of the UNtrimmed input. If any surrounding
whitespace was trimmed, that index is out of bounds for the trimmed string
and `split_at` panics; otherwise it splits into (whole input, ""). The
`if suf = [] ∧ s.length ≠ t.length` guard below models exactly this. When a
non-digit is found, `split_at` at its index is `(takeWhile isDigit,
dropWhile isDigit)` of the trimmed input. -/

/-- 2^64, the modulus of Rust `u64` arithmetic. -/
def U64 : Nat := 18446744073709551616

/-- `str::trim` of Rust modelled on ASCII character lists: strip whitespace
from both ends. -/
def trimChars (s : List Char) : List Char :=
  ((s.dropWhile Char.isWhitespace).reverse.dropWhile Char.isWhitespace).reverse

/-- Numeric value of a decimal digit string, as computed by
`str::parse::<u64>` before its range check (`digitsVal` is exact; the range
check is applied at the use site). -/
def digitsVal (ds : List Char) : Nat :=
  ds.foldl (fun a c => a * 10 + (c.toNat - 48)) 0

/-- The suffix match of `parse_size` (already trimmed and ASCII-uppercased):
`"" => 1, "K" | "KB" => 1024, "M" | "MB" => 1024*1024,
"G" | "GB" => 1024*1024*1024`, anything else panics (`none`). -/
def multOf : List Char → Option Nat
  | [] => some 1
  | ['K'] => some 1024
  | ['K', 'B'] => some 1024
  | ['M'] => some 1048576
  | ['M', 'B'] => some 1048576
  | ['G'] => some 1073741824
  | ['G', 'B'] => some 1073741824
  | _ => none

/-- `parse_size` (src/main.rs lines 77-89). Returns `none` exactly when the
Rust function terminates the process. The final multiplication `n * mult` is
`u64` arithmetic, hence the `% U64` (release-profile wrapping semantics). -/
def parseSizeChars (s : List Char) : Option Nat :=
  let t := trimChars s
  let num := t.takeWhile (fun c => c.isDigit)
  let suf := t.dropWhile (fun c => c.isDigit)
  if suf = [] ∧ s.length ≠ t.length then none
  else if num = [] then none
  else if U64 ≤ digitsVal num then none
  else match multOf ((trimChars suf).map Char.toUpper) with
    | some m => some (digitsVal num * m % U64)
    | none => none

/-- `parse_size` on a Lean `String`. -/
def parse_size (s : String) : Option Nat := parseSizeChars s.data

/-! ## The write/read chunk loops (src/main.rs lines 236-243 and 253-260)

```rust
let mut written: u64 = 0;
while written < total {
    let to_write = std::cmp::min(block, total - written) as usize;
    writer.write_all(&buf[..to_write])?;
    written += to_write as u64;
    ...
}
```

Each iteration transfers `min block remaining` bytes; the loop runs until the
remainder is 0. The read loop reads `min block remaining` bytes from the
file (whose size is the number of bytes written) until a zero-length read
signals end-of-file. Both loops are the same recursion on the remaining byte
count; `fuel` is a structural bound on the iteration count (each iteration
moves at least one byte when `block > 0`, so `fuel = remaining` suffices). -/

/-- The sequence of per-iteration transfer sizes of a `min block remaining`
chunk loop, starting from `remaining`, with a structural fuel bound. -/
def chunkSeq (block : Nat) : Nat → Nat → List Nat
  | _, 0 => []
  | 0, _ + 1 => []
  | fuel + 1, r + 1 =>
      min block (r + 1) :: chunkSeq block fuel (r + 1 - min block (r + 1))

/-- Chunk sizes of the write loop (src/main.rs lines 236-243). -/
def writeChunks (total block : Nat) : List Nat := chunkSeq block total total

/-- Sizes of the successive non-empty reads of the read loop
(src/main.rs lines 253-260) over a file of `fileSize` bytes; the loop stops
at the first zero-length read. -/
def readChunks (fileSize block : Nat) : List Nat := chunkSeq block fileSize fileSize

theorem chunkSeq_nil_right (block fuel : Nat) : chunkSeq block fuel 0 = [] := by
  cases fuel <;> rfl

theorem chunkSeq_nil_left (block r : Nat) : chunkSeq block 0 r = [] := by
  cases r <;> rfl

theorem chunkSeq_cons (block fuel r : Nat) :
    chunkSeq block (fuel + 1) (r + 1)
      = min block (r + 1) :: chunkSeq block fuel (r + 1 - min block (r + 1)) := rfl

/-- With `block > 0` and enough fuel, the chunk loop transfers exactly the
remaining byte count. -/
theorem chunkSeq_sum (block : Nat) (hb : 0 < block) :
    ∀ fuel r, r ≤ fuel → (chunkSeq block fuel r).sum = r := by
  intro fuel
  induction fuel with
  | zero =>
      intro r hr
      have : r = 0 := Nat.le_zero.mp hr
      subst this
      simp [chunkSeq_nil_right]
  | succ f ih =>
      intro r hr
      cases r with
      | zero => simp [chunkSeq_nil_right]
      | succ r' =>
          rw [chunkSeq_cons, List.sum_cons]
          have hm1 : 1 ≤ min block (r' + 1) := le_min hb (Nat.succ_le_succ (Nat.zero_le r'))
          have hm2 : min block (r' + 1) ≤ r' + 1 := min_le_right _ _
          rw [ih (r' + 1 - min block (r' + 1)) (by omega)]
          omega

/-- With `block > 0` and enough fuel, the chunk loop performs exactly
`⌈remaining / block⌉` iterations. -/
theorem chunkSeq_length (block : Nat) (hb : 0 < block) :
    ∀ fuel r, r ≤ fuel → (chunkSeq block fuel r).length = (r + block - 1) / block := by
  intro fuel
  induction fuel with
  | zero =>
      intro r hr
      have : r = 0 := Nat.le_zero.mp hr
      subst this
      have hlt : block - 1 < block := by omega
      simp [chunkSeq_nil_right, Nat.div_eq_of_lt hlt]
  | succ f ih =>
      intro r hr
      cases r with
      | zero =>
          have hlt : block - 1 < block := by omega
          simp [chunkSeq_nil_right, Nat.div_eq_of_lt hlt]
      | succ r' =>
          rw [chunkSeq_cons, List.length_cons]
          by_cases hc : block ≤ r' + 1
          · rw [min_eq_left hc]
            rw [ih (r' + 1 - block) (by omega)]
            have e1 : r' + 1 - block + block - 1 = r' := by omega
            have e2 : r' + 1 + block - 1 = r' + block := by omega
            rw [e1, e2, Nat.add_div_right r' hb]
          · have hc' : r' + 1 ≤ block := by omega
            rw [min_eq_right hc']
            rw [Nat.sub_self, chunkSeq_nil_right]
            have e2 : r' + 1 + block - 1 = r' + block := by omega
            rw [List.length_nil, e2, Nat.add_div_right r' hb,
              Nat.div_eq_of_lt (by omega : r' < block)]

/-- Every entry of the chunk sequence is `min block remaining`, where
`remaining` is the starting count minus what the previous iterations
transferred (`getD i _ 0` is the `i`-th chunk size). -/
theorem chunkSeq_get (block : Nat) :
    ∀ fuel r (i : Nat), i < (chunkSeq block fuel r).length →
      (chunkSeq block fuel r).getD i 0
        = min block (r - ((chunkSeq block fuel r).take i).sum) := by
  intro fuel
  induction fuel with
  | zero =>
      intro r i hi
      rw [chunkSeq_nil_left] at hi
      exact absurd hi (by simp)
  | succ f ih =>
      intro r i hi
      cases r with
      | zero =>
          rw [chunkSeq_nil_right] at hi
          exact absurd hi (by simp)
      | succ r' =>
          rw [chunkSeq_cons] at hi ⊢
          cases i with
          | zero => simp
          | succ i' =>
              have hi' : i' < (chunkSeq block f (r' + 1 - min block (r' + 1))).length := by
                simpa using hi
              have hm : min block (r' + 1) ≤ r' + 1 := min_le_right _ _
              simp only [List.getD_cons_succ, List.take_succ_cons, List.sum_cons]
              rw [ih (r' + 1 - min block (r' + 1)) i' hi']
              congr 1
              omega

/-- Every chunk is at most `block` bytes. -/
theorem chunkSeq_le_block (block : Nat) :
    ∀ fuel r c, c ∈ chunkSeq block fuel r → c ≤ block := by
  intro fuel
  induction fuel with
  | zero =>
      intro r c hc
      rw [chunkSeq_nil_left] at hc
      exact absurd hc (by simp)
  | succ f ih =>
      intro r c hc
      cases r with
      | zero =>
          rw [chunkSeq_nil_right] at hc
          exact absurd hc (by simp)
      | succ r' =>
          rw [chunkSeq_cons, List.mem_cons] at hc
          rcases hc with rfl | hc
          · exact min_le_left _ _
          · exact ih _ _ hc

/-- Every chunk transferred before the loop exits is non-empty (the read
loop breaks at its first zero-length read, after the whole file). -/
theorem chunkSeq_pos (block : Nat) (hb : 0 < block) :
    ∀ fuel r c, c ∈ chunkSeq block fuel r → 0 < c := by
  intro fuel
  induction fuel with
  | zero =>
      intro r c hc
      rw [chunkSeq_nil_left] at hc
      exact absurd hc (by simp)
  | succ f ih =>
      intro r c hc
      cases r with
      | zero =>
          rw [chunkSeq_nil_right] at hc
          exact absurd hc (by simp)
      | succ r' =>
          rw [chunkSeq_cons, List.mem_cons] at hc
          rcases hc with rfl | hc
          · exact lt_min hb (Nat.succ_pos r')
          · exact ih _ _ hc

/-! ## The pseudo-random block buffer (src/main.rs lines 231-234)

```rust
let mut rng = SmallRng::seed_from_u64(0x5EED_CAFE);
let mut buf = vec![0u8; block as usize];
rng.fill_bytes(&mut buf);
```

`SmallRng` on 64-bit platforms (rand 0.8) is Xoshiro256PlusPlus;
`seed_from_u64` expands the seed through SplitMix64 into the four state
words, and `fill_bytes` emits successive `next_u64` outputs as little-endian
bytes, truncating the last word. All arithmetic is on `u64`, modelled as
`Nat` reduced `% U64`. -/

/-- 64-bit left rotation. -/
def rotl64 (x k : Nat) : Nat := ((x <<< k) % U64) ||| (x >>> (64 - k))

/-- One step of the SplitMix64 generator: `(output, next state)`. -/
def splitmix64 (s : Nat) : Nat × Nat :=
  let s1 := (s + 0x9E3779B97F4A7C15) % U64
  let z1 := ((s1 ^^^ (s1 >>> 30)) * 0xBF58476D1CE4E5B9) % U64
  let z2 := ((z1 ^^^ (z1 >>> 27)) * 0x94D049BB133111EB) % U64
  (z2 ^^^ (z2 >>> 31), s1)

/-- `SeedableRng::seed_from_u64`: the four Xoshiro256PlusPlus state words
produced by SplitMix64 from the seed. -/
def xoshiroInit (seed : Nat) : Nat × Nat × Nat × Nat :=
  let p0 := splitmix64 seed
  let p1 := splitmix64 p0.2
  let p2 := splitmix64 p1.2
  let p3 := splitmix64 p2.2
  (p0.1, p1.1, p2.1, p3.1)

/-- Xoshiro256PlusPlus `next_u64`: `(output, next state)`. -/
def xoshiroNext : Nat × Nat × Nat × Nat → Nat × (Nat × Nat × Nat × Nat)
  | (s0, s1, s2, s3) =>
    let result := (rotl64 ((s0 + s3) % U64) 23 + s0) % U64
    let t := (s1 <<< 17) % U64
    let s2a := s2 ^^^ s0
    let s3a := s3 ^^^ s1
    let s1a := s1 ^^^ s2a
    let s0a := s0 ^^^ s3a
    let s2b := s2a ^^^ t
    let s3b := rotl64 s3a 45
    (result, (s0a, s1a, s2b, s3b))

/-- The first `k` `next_u64` outputs from a given state. -/
def rngWords : Nat × Nat × Nat × Nat → Nat → List Nat
  | _, 0 => []
  | st, k + 1 => (xoshiroNext st).1 :: rngWords (xoshiroNext st).2 k

/-- The eight little-endian bytes of a 64-bit word. -/
def leBytes8 (x : Nat) : List Nat :=
  [x % 256, x >>> 8 % 256, x >>> 16 % 256, x >>> 24 % 256,
   x >>> 32 % 256, x >>> 40 % 256, x >>> 48 % 256, x >>> 56 % 256]

/-- `fill_bytes` on a fresh `SmallRng` seeded with `seed`, filling `n`
bytes: successive `next_u64` words serialized little-endian, the last word
truncated to the remaining length. -/
def smallRngFill (seed n : Nat) : List Nat :=
  (((rngWords (xoshiroInit seed) ((n + 7) / 8)).map leBytes8).flatten).take n

/-- The block-sized pseudo-random buffer of the write phase: `block` bytes
from `SmallRng::seed_from_u64(0x5EED_CAFE)` (src/main.rs lines 231-234). -/
def rngBuf (block : Nat) : List Nat := smallRngFill 0x5EEDCAFE block

/-- The byte content the write loop sends to the file: for each chunk, the
first `to_write` bytes of the fixed buffer (`&buf[..to_write]`,
src/main.rs line 240), concatenated. -/
def writtenBytes (total block : Nat) : List Nat :=
  ((writeChunks total block).map (fun c => (rngBuf block).take c)).flatten

theorem rngWords_length (st : Nat × Nat × Nat × Nat) :
    ∀ k, (rngWords st k).length = k := by
  intro k
  induction k generalizing st with
  | zero => rfl
  | succ k ih => simp [rngWords, ih]

theorem leBytes8_length (x : Nat) : (leBytes8 x).length = 8 := rfl

theorem flatten_leBytes8_length (l : List Nat) :
    ((l.map leBytes8).flatten).length = 8 * l.length := by
  induction l with
  | nil => rfl
  | cons x xs ih =>
      simp only [List.map_cons, List.flatten_cons, List.length_append, ih,
        leBytes8_length, List.length_cons]
      omega

/-- The buffer really holds `n` bytes. -/
theorem smallRngFill_length (seed n : Nat) : (smallRngFill seed n).length = n := by
  unfold smallRngFill
  rw [List.length_take, flatten_leBytes8_length, rngWords_length]
  have hd := Nat.div_add_mod (n + 7) 8
  have hm : (n + 7) % 8 < 8 := Nat.mod_lt _ (by omega)
  omega

theorem rngBuf_length (block : Nat) : (rngBuf block).length = block :=
  smallRngFill_length _ _

/-- Structure of the written content: the fixed buffer repeated for each
full block, then its prefix of length `total % block` for the final partial
chunk. -/
theorem chunkSeq_content (block : Nat) (hb : 0 < block) (buf : List Nat)
    (hbuf : buf.length = block) :
    ∀ fuel r, r ≤ fuel →
      ((chunkSeq block fuel r).map (fun c => buf.take c)).flatten
        = (List.replicate (r / block) buf).flatten ++ buf.take (r % block) := by
  intro fuel
  induction fuel with
  | zero =>
      intro r hr
      have : r = 0 := Nat.le_zero.mp hr
      subst this
      simp [chunkSeq_nil_right]
  | succ f ih =>
      intro r hr
      cases r with
      | zero => simp [chunkSeq_nil_right]
      | succ r' =>
          rw [chunkSeq_cons]
          by_cases hc : block ≤ r' + 1
          · rw [min_eq_left hc]
            simp only [List.map_cons, List.flatten_cons]
            rw [ih (r' + 1 - block) (by omega)]
            have htake : buf.take block = buf := by
              rw [← hbuf]; exact List.take_length buf
            rw [htake]
            rw [Nat.div_eq_sub_div hb hc, ← Nat.mod_eq_sub_mod hc]
            rw [List.replicate_succ, List.flatten_cons, List.append_assoc]
          · have hc' : r' + 1 < block := by omega
            rw [min_eq_right (by omega : r' + 1 ≤ block)]
            simp only [List.map_cons, List.flatten_cons, Nat.sub_self,
              chunkSeq_nil_right, List.map_nil, List.flatten_nil, List.append_nil]
            rw [Nat.div_eq_of_lt hc', Nat.mod_eq_of_lt hc']
            simp

/-- `writtenBytes` in closed form: the seeded buffer repeated, the last
chunk truncated to the remainder. -/
theorem writtenBytes_eq (total block : Nat) (hb : 0 < block) :
    writtenBytes total block
      = (List.replicate (total / block) (rngBuf block)).flatten
        ++ (rngBuf block).take (total % block) :=
  chunkSeq_content block hb (rngBuf block) (rngBuf_length block) total total le_rfl

/-- The write phase puts exactly `total` bytes in the file. -/
theorem writtenBytes_length (total block : Nat) (hb : 0 < block) :
    (writtenBytes total block).length = total := by
  unfold writtenBytes
  rw [List.length_flatten, List.map_map]
  have hmap : (writeChunks total block).map (List.length ∘ fun c => (rngBuf block).take c)
      = (writeChunks total block).map (fun c => c) := by
    refine List.map_congr_left ?_
    intro c hc
    have hcb : c ≤ block := chunkSeq_le_block block total total c hc
    simp only [Function.comp_apply, List.length_take, rngBuf_length]
    omega
  rw [hmap, List.map_id']
  exact chunkSeq_sum block hb total total le_rfl

/-! ## The benchmark run (src/main.rs `main`, lines 204-313)

`main` is a linear sequence of fallible steps. Interactive device selection
and the optional log prompt are not modelled (the target directory is taken
as given, and the log branch is behind an interactive yes/no prompt); the
modelled steps, in source order, are:

* line 217: `assert!(block > 0 && total >= block, "block must be >0 and <= total size")`
  — fatal before any I/O;
* line 224: `std::fs::create_dir_all(&target_dir)?`;
* line 228: `open_write(&test_path, true)?` — creates/truncates the temp file;
* lines 236-244: the write loop plus `writer.flush()?` (one `writeOk` flag);
* line 245: `writer.get_ref().sync_all()?`;
* line 250: `open_read(&test_path, true)?`;
* lines 255-260: the read loop (`readOk`);
* lines 309-311: `if !args.keep { let _ = std::fs::remove_file(&test_path); }`
  — the deletion result is DISCARDED (`let _ =`), so a failed delete does
  not change the `Ok(())` return.

The file system is reduced to what the claims inspect: whether the target
directory exists and the temp file's content (`none` = absent). The state
left by a failing write pass is recorded as the truncated file (`some []`);
no claim inspects the partially-written content. Each fallible step's
success is an oracle bit in `Outcomes`; `Except.error` models the `?`/panic
propagation that makes the process print the error and exit non-zero. -/

/-- Target-directory state: does the directory exist, and the temp file
(`.usbbench.tmp`) content if present. -/
structure FS where
  dirExists : Bool
  tmpFile : Option (List Nat)
deriving DecidableEq

/-- Success oracle for each fallible I/O step of `main`, in source order. -/
structure Outcomes where
  createDirOk : Bool
  openWriteOk : Bool
  writeOk : Bool
  syncOk : Bool
  openReadOk : Bool
  readOk : Bool
  removeOk : Bool
deriving DecidableEq

/-- The environment in which every I/O operation succeeds. -/
def allOk : Outcomes := ⟨true, true, true, true, true, true, true⟩

/-- One benchmark run (`main`, lines 214-313): result (`Except.error` =
process exits non-zero with a message) and final file-system state. -/
def runMain (total block : Nat) (keep : Bool) (o : Outcomes) (fs : FS) :
    Except String Unit × FS :=
  if 0 < block ∧ block ≤ total then
    if o.createDirOk then
      if o.openWriteOk then
        if o.writeOk then
          if o.syncOk then
            if o.openReadOk then
              if o.readOk then
                if keep then
                  (Except.ok (), ⟨true, some (writtenBytes total block)⟩)
                else if o.removeOk then
                  (Except.ok (), ⟨true, none⟩)
                else
                  (Except.ok (), ⟨true, some (writtenBytes total block)⟩)
              else (Except.error "read failed", ⟨true, some (writtenBytes total block)⟩)
            else (Except.error "open read failed", ⟨true, some (writtenBytes total block)⟩)
          else (Except.error "sync failed", ⟨true, some (writtenBytes total block)⟩)
        else (Except.error "write failed", ⟨true, some []⟩)
      else (Except.error "open write failed", ⟨true, fs.tmpFile⟩)
    else (Except.error "create dir failed", fs)
  else (Except.error "block must be >0 and <= total size", fs)

/-- In a successful run with `keep = true`, the temp file holds exactly the
deterministically generated content (whatever the environment was). -/
theorem runMain_keep_ok_tmp (total block : Nat) (o : Outcomes) (fs : FS)
    (h : (runMain total block true o fs).1 = Except.ok ()) :
    (runMain total block true o fs).2.tmpFile = some (writtenBytes total block) := by
  unfold runMain at h ⊢
  split_ifs at h ⊢ <;> simp_all

/-! ## Speed computation (src/main.rs lines 26-37)

```rust
fn mbps(bytes: u128, dur_s: f64) -> f64 { (bytes as f64 * 8.0) / 1_000_000f64 / dur_s }
fn mbs(bytes: u128, dur_s: f64) -> f64 { (bytes as f64) / 1_000_000f64 / dur_s }
```

and, inside `print_progress` (lines 29-37), the live status line:

```rust
let speed_mbs = if elapsed > 0.0 { (done as f64 / 1_000_000f64) / elapsed } else { 0.0 };
```

`f64` values are modelled as exact rationals extended with the IEEE special
values; `fdivQ` is IEEE division restricted to what occurs here: a finite
numerator over a zero denominator gives `±inf` by the numerator's sign, and
`0.0 / 0.0` gives NaN. Rounding of finite values is not modelled (the claims
concern only the zero-elapsed behaviour and the exact ×8 relation, and
scaling by a power of two is exact in `f64`). -/

/-- An `f64` value: an exact finite rational or an IEEE special value. -/
inductive FVal where
  | finite (q : ℚ)
  | posInf
  | negInf
  | nan
deriving DecidableEq

/-- IEEE division of a finite `f64` by a finite `f64` (exact rationals for
the finite case): division by zero yields NaN or a signed infinity. -/
def fdivQ (x y : ℚ) : FVal :=
  if y = 0 then
    if x = 0 then FVal.nan
    else if 0 < x then FVal.posInf
    else FVal.negInf
  else FVal.finite (x / y)

/-- `mbs` (src/main.rs line 27): decimal MB/s. -/
def mbs (bytes : Nat) (dur : ℚ) : FVal := fdivQ ((bytes : ℚ) / 1000000) dur

/-- `mbps` (src/main.rs line 26): megabits per second. -/
def mbps (bytes : Nat) (dur : ℚ) : FVal := fdivQ ((bytes : ℚ) * 8 / 1000000) dur

/-- Multiplication of an `f64` by 8 (exact; `8 * ±inf = ±inf`, `8 * NaN = NaN`). -/
def scale8 : FVal → FVal
  | FVal.finite q => FVal.finite (8 * q)
  | v => v

/-- The guarded speed of the live progress line (src/main.rs lines 32-34). -/
def progressSpeed (done : Nat) (elapsed : ℚ) : ℚ :=
  if 0 < elapsed then (done : ℚ) / 1000000 / elapsed else 0

/-! ## Helper lemmas for `parse_size` -/

theorem dropWhile_all_neg {p : Char → Bool} {l : List Char}
    (h : ∀ c ∈ l, p c = false) : l.dropWhile p = l := by
  cases l with
  | nil => rfl
  | cons a as =>
      rw [List.dropWhile_cons, h a (List.mem_cons_self a as)]
      simp

theorem trimChars_all_neg {l : List Char}
    (h : ∀ c ∈ l, Char.isWhitespace c = false) : trimChars l = l := by
  unfold trimChars
  rw [dropWhile_all_neg h,
    dropWhile_all_neg (fun c hc => h c (List.mem_reverse.mp hc)),
    List.reverse_reverse]

theorem takeWhile_append_all {p : Char → Bool} (xs ys : List Char)
    (hxs : ∀ x ∈ xs, p x = true) (hys : ∀ y ∈ ys.take 1, p y = false) :
    (xs ++ ys).takeWhile p = xs := by
  induction xs with
  | nil =>
      cases ys with
      | nil => rfl
      | cons y ys' =>
          rw [List.nil_append, List.takeWhile_cons, hys y (by simp)]
          simp
  | cons x xs' ih =>
      rw [List.cons_append, List.takeWhile_cons, hxs x (List.mem_cons_self x xs')]
      simp only [if_true]
      rw [ih (fun a ha => hxs a (List.mem_cons_of_mem x ha))]

theorem dropWhile_append_all {p : Char → Bool} (xs ys : List Char)
    (hxs : ∀ x ∈ xs, p x = true) (hys : ∀ y ∈ ys.take 1, p y = false) :
    (xs ++ ys).dropWhile p = ys := by
  induction xs with
  | nil =>
      cases ys with
      | nil => rfl
      | cons y ys' =>
          rw [List.nil_append, List.dropWhile_cons, hys y (by simp)]
          simp
  | cons x xs' ih =>
      rw [List.cons_append, List.dropWhile_cons, hxs x (List.mem_cons_self x xs')]
      simp only [if_true]
      exact ih (fun a ha => hxs a (List.mem_cons_of_mem x ha))

theorem isDigit_not_ws {c : Char} (h : c.isDigit = true) : c.isWhitespace = false := by
  by_contra hw
  have hw' : c.isWhitespace = true := by
    cases hwe : c.isWhitespace
    · exact absurd hwe hw
    · rfl
  have hd : ((c = ' ' ∨ c = '\t') ∨ c = '\r') ∨ c = '\n' := by
    simpa [Char.isWhitespace] using hw'
  rcases hd with ((rfl | rfl) | rfl) | rfl <;> exact absurd h (by decide)

/-- Successful parse of a well-formed `digits ++ suffix` string. -/
theorem parse_append (num suf : List Char) (m : Nat) (hnum : num ≠ [])
    (hdig : ∀ c ∈ num, c.isDigit = true)
    (hsw : ∀ c ∈ suf, c.isWhitespace = false)
    (hsd : ∀ c ∈ suf.take 1, c.isDigit = false)
    (hm : multOf (suf.map Char.toUpper) = some m)
    (hfit : digitsVal num < U64) (hprod : digitsVal num * m < U64) :
    parseSizeChars (num ++ suf) = some (digitsVal num * m) := by
  have hnws : ∀ c ∈ num ++ suf, c.isWhitespace = false := by
    intro c hc
    rcases List.mem_append.mp hc with h | h
    · exact isDigit_not_ws (hdig c h)
    · exact hsw c h
  have htrim : trimChars (num ++ suf) = num ++ suf := trimChars_all_neg hnws
  have htw : (num ++ suf).takeWhile (fun c => c.isDigit) = num :=
    takeWhile_append_all num suf hdig hsd
  have hdw : (num ++ suf).dropWhile (fun c => c.isDigit) = suf :=
    dropWhile_append_all num suf hdig hsd
  have htrimsuf : trimChars suf = suf := trimChars_all_neg hsw
  have h1 : ¬(suf = [] ∧ (num ++ suf).length ≠ (num ++ suf).length) := by
    rintro ⟨-, hne⟩
    exact hne rfl
  have h3 : ¬(U64 ≤ digitsVal num) := by omega
  unfold parseSizeChars
  simp only [htrim, htw, hdw, htrimsuf, hm]
  rw [if_neg h1, if_neg hnum, if_neg h3, Nat.mod_eq_of_lt hprod]

/-! ## Claims -/

/-- Claim C1: for every configuration with `block > 0` and `block ≤ total`,
the write pass writes exactly `total` bytes in exactly
`⌈total / block⌉ = (total + block - 1) / block` chunks, each chunk of size
`min block remaining`; and the read pass then reads back exactly `total`
bytes, every read before the terminating zero-length read being non-empty.
In particular (see the witness) with `total = 1000000` and
`block = 100000` the write pass performs exactly 10 chunks of 100000. -/
theorem c1_chunked_write_read (total block : Nat) (hb : 0 < block)
    (_hbt : block ≤ total) :
    (writeChunks total block).sum = total ∧
    (writeChunks total block).length = (total + block - 1) / block ∧
    (∀ i, i < (writeChunks total block).length →
      (writeChunks total block).getD i 0
        = min block (total - ((writeChunks total block).take i).sum)) ∧
    (readChunks total block).sum = total ∧
    (∀ c ∈ readChunks total block, 0 < c) :=
  ⟨chunkSeq_sum block hb total total le_rfl,
   chunkSeq_length block hb total total le_rfl,
   fun i hi => chunkSeq_get block total total i hi,
   chunkSeq_sum block hb total total le_rfl,
   fun c hc => chunkSeq_pos block hb total total c hc⟩

/-- Witness for C1 at `total = 1000000`, `block = 100000`: the write pass is
exactly 10 chunks of 100000 bytes. -/
theorem c1_chunked_write_read_witness :
    (0 < 100000 ∧ 100000 ≤ 1000000) ∧
    writeChunks 1000000 100000 = List.replicate 10 100000 ∧
    ((writeChunks 1000000 100000).sum = 1000000 ∧
     (writeChunks 1000000 100000).length = (1000000 + 100000 - 1) / 100000 ∧
     (∀ i, i < (writeChunks 1000000 100000).length →
       (writeChunks 1000000 100000).getD i 0
         = min 100000 (1000000 - ((writeChunks 1000000 100000).take i).sum)) ∧
     (readChunks 1000000 100000).sum = 1000000 ∧
     (∀ c ∈ readChunks 1000000 100000, 0 < c)) :=
  ⟨by decide, by decide,
   c1_chunked_write_read 1000000 100000 (by decide) (by decide)⟩

/-- The recognized suffix spellings (every case variant of
`"" / K / KB / M / MB / G / GB`) with their multipliers. -/
def suffixVariants : List (List Char × Nat) :=
  [([], 1),
   (['K'], 1024), (['k'], 1024),
   (['K','B'], 1024), (['K','b'], 1024), (['k','B'], 1024), (['k','b'], 1024),
   (['M'], 1048576), (['m'], 1048576),
   (['M','B'], 1048576), (['M','b'], 1048576), (['m','B'], 1048576), (['m','b'], 1048576),
   (['G'], 1073741824), (['g'], 1073741824),
   (['G','B'], 1073741824), (['G','b'], 1073741824), (['g','B'], 1073741824), (['g','b'], 1073741824)]

/-- Claim C2 (amended): for every string of one or more decimal digits
followed by a case-insensitive suffix in `{"", K, KB, M, MB, G, GB}`,
`parse_size` returns digits × multiplier — PROVIDED the digit value and the
product fit in `u64`. (The unamended universal claim fails by `u64`
overflow: see the counterexample and claim C10.) -/
theorem c2_parse_size_valid (num suf : List Char) (m : Nat) (hnum : num ≠ [])
    (hdig : ∀ c ∈ num, c.isDigit = true)
    (hsuf : (suf, m) ∈ suffixVariants)
    (hfit : digitsVal num < U64) (hprod : digitsVal num * m < U64) :
    parseSizeChars (num ++ suf) = some (digitsVal num * m) := by
  fin_cases hsuf <;>
    exact parse_append _ _ _ hnum hdig (by decide) (by decide) (by decide) hfit hprod

/-- Witness for C2 (amended) at `"512M"`: the result is 536870912. -/
theorem c2_parse_size_valid_witness :
    ((['5','1','2'] : List Char) ≠ [] ∧
      (∀ c ∈ (['5','1','2'] : List Char), c.isDigit = true) ∧
      ((['M'], 1048576) ∈ suffixVariants) ∧
      digitsVal ['5','1','2'] < U64 ∧ digitsVal ['5','1','2'] * 1048576 < U64) ∧
    parseSizeChars (['5','1','2'] ++ ['M']) = some (digitsVal ['5','1','2'] * 1048576) ∧
    digitsVal ['5','1','2'] * 1048576 = 536870912 :=
  ⟨by decide,
   c2_parse_size_valid ['5','1','2'] ['M'] 1048576 (by decide) (by decide)
     (by decide) (by decide) (by decide),
   by decide⟩

/-- Counterexample to C2 as stated: `"17179869184G"` is one or more digits
followed by the suffix `G`, but `parse_size` returns 0 (the `u64` product
wraps), not the mathematical product `17179869184 * 2^30 = 2^64`. -/
theorem c2_overflow_counterexample :
    parse_size "17179869184G" = some 0 ∧
    some (0 : Nat) ≠ some (17179869184 * 1073741824) := by
  exact ⟨by decide, by decide⟩

/-- Claim C3 (amended): if a phase's elapsed time is 0, the final reported
MB/s and Mbps values (`mbs`, `mbps`, src/main.rs lines 26-27, used at lines
266-269) are NOT 0 — they are not even finite (`+inf` for a non-zero byte
count, NaN for a zero byte count). Only the live progress line
(`print_progress`, lines 32-34) guards the zero-elapsed case and reports 0. -/
theorem c3_zero_elapsed_amended (bytes : Nat) :
    (∀ q : ℚ, mbs bytes 0 ≠ FVal.finite q) ∧
    (∀ q : ℚ, mbps bytes 0 ≠ FVal.finite q) ∧
    progressSpeed bytes 0 = 0 := by
  refine ⟨?_, ?_, by simp [progressSpeed]⟩ <;>
    · intro q
      simp only [mbs, mbps, fdivQ]
      split_ifs <;> simp

/-- Counterexample to C3 as stated: a phase with 1000000 bytes and elapsed
time 0 reports `+inf` MB/s and `+inf` Mbps, not 0. -/
theorem c3_zero_elapsed_counterexample :
    mbs 1000000 0 = FVal.posInf ∧ mbps 1000000 0 = FVal.posInf ∧
    FVal.posInf ≠ FVal.finite 0 := by
  refine ⟨?_, ?_, by simp⟩ <;> norm_num [mbs, mbps, fdivQ]

/-- Claim C4: with `block = 0` or `block > total`, the run fails fatally at
the `assert!` (src/main.rs line 217) before any I/O: the error is the
assertion message and the file system is returned untouched (no directory
creation, no temp file). -/
theorem c4_validation_before_io (total block : Nat) (keep : Bool)
    (o : Outcomes) (fs : FS) (h : block = 0 ∨ total < block) :
    runMain total block keep o fs
      = (Except.error "block must be >0 and <= total size", fs) := by
  have hcond : ¬(0 < block ∧ block ≤ total) := by omega
  unfold runMain
  rw [if_neg hcond]

/-- Witness for C4 at `block = 0`. -/
theorem c4_validation_before_io_witness :
    ((0 : Nat) = 0 ∨ (1000 : Nat) < 0) ∧
    runMain 1000 0 false allOk ⟨false, none⟩
      = (Except.error "block must be >0 and <= total size", ⟨false, none⟩) :=
  ⟨Or.inl rfl,
   c4_validation_before_io 1000 0 false allOk ⟨false, none⟩ (Or.inl rfl)⟩

/-- Claim C6: for every byte count and elapsed-seconds value, the reported
Mbps equals the reported MB/s scaled by 8 — exactly, in all cases (also the
infinite/NaN zero-elapsed cases, where scaling by 8 fixes the value). -/
theorem c6_mbps_eq_eight_mbs (bytes : Nat) (dur : ℚ) :
    mbps bytes dur = scale8 (mbs bytes dur) := by
  rcases Nat.eq_zero_or_pos bytes with rfl | hbp
  · by_cases hdur : dur = 0 <;> simp [mbps, mbs, fdivQ, scale8, hdur]
  · have hb0 : (0 : ℚ) < (bytes : ℚ) := by exact_mod_cast hbp
    by_cases hdur : dur = 0
    · have h3 : 0 < (bytes : ℚ) * 8 / 1000000 := by positivity
      have h4 : 0 < (bytes : ℚ) / 1000000 := by positivity
      simp [mbps, mbs, fdivQ, scale8, hdur, h3, h4, h3.ne', h4.ne']
    · simp only [mbps, mbs, fdivQ, scale8, if_neg hdur]
      ring_nf

/-- Claim C10: `parse_size` computes digits × multiplier in `u64`
arithmetic; on `"17179869184G"` (digit value `2^34`, which fits in `u64`)
the mathematical product is `2^64`, which exceeds `u64::MAX`, and the
multiplication wraps modulo `2^64` to 0 instead of failing. -/
theorem c10_parse_size_wraps :
    parse_size "17179869184G" = some (17179869184 * 1073741824 % U64) ∧
    17179869184 * 1073741824 % U64 = 0 ∧
    U64 ≤ 17179869184 * 1073741824 ∧
    (17179869184 : Nat) < U64 := by
  refine ⟨by decide, by decide, by decide, by decide⟩

/-- The exact acceptance condition of `parse_size`: the trimmed input must
carry a non-empty leading digit run whose value fits in `u64`, the rest of
the trimmed input must — after trimming whitespace around it — uppercase to
a recognized suffix, and if the trimmed input is all digits, the input must
have had no surrounding whitespace (else the `split_at(s.len())` index is
out of bounds and the process panics). -/
def sizeAccepted (s : List Char) : Prop :=
  ¬((trimChars s).dropWhile (fun c => c.isDigit) = [] ∧ s.length ≠ (trimChars s).length) ∧
  (trimChars s).takeWhile (fun c => c.isDigit) ≠ [] ∧
  digitsVal ((trimChars s).takeWhile (fun c => c.isDigit)) < U64 ∧
  (multOf ((trimChars ((trimChars s).dropWhile (fun c => c.isDigit))).map Char.toUpper)).isSome
    = true

/-- Claim C5 (amended): `parse_size` succeeds exactly on inputs accepted by
`sizeAccepted`; in particular the malformed inputs `"abc"`, `""` and `"5X"`
fail fatally. However — contrary to the claim as stated — whitespace between
the digits and the suffix is tolerated, because the suffix is trimmed before
matching (`suf.trim()`, src/main.rs line 81): see the counterexample. -/
theorem c5_malformed_amended :
    (∀ s : List Char, (parseSizeChars s).isSome = true ↔ sizeAccepted s) ∧
    parse_size "abc" = none ∧ parse_size "" = none ∧ parse_size "5X" = none := by
  refine ⟨?_, by decide, by decide, by decide⟩
  intro s
  unfold parseSizeChars sizeAccepted
  dsimp only
  split_ifs with h1 h2 h3
  · simp [h1]
  · simp [h2]
  · constructor
    · intro hcontra
      simp at hcontra
    · rintro ⟨-, -, hlt, -⟩
      omega
  · have h3' : digitsVal ((trimChars s).takeWhile (fun c => c.isDigit)) < U64 := by omega
    cases hmo : multOf ((trimChars ((trimChars s).dropWhile (fun c => c.isDigit))).map
        Char.toUpper) with
    | none =>
        constructor
        · intro hcontra
          exact Bool.noConfusion hcontra
        · rintro ⟨-, -, -, hsome⟩
          exact Bool.noConfusion hsome
    | some m =>
        constructor
        · intro _
          exact ⟨h1, h2, h3', rfl⟩
        · intro _
          rfl

/-- Counterexample to C5 as stated: `"5 K"` has internal whitespace between
the digits and the suffix, so by the claim it must fail fatally — but
`parse_size` accepts it and returns `5 * 1024 = 5120`, because the suffix
substring is trimmed before matching. -/
theorem c5_internal_space_counterexample :
    parse_size "5 K" = some 5120 ∧ parse_size "5 K" ≠ none := by
  exact ⟨by decide, by decide⟩

/-- Claim C7: a run in which every I/O operation succeeds, with
`keep = false`, exits successfully and leaves no temp file — and a second
such run on the resulting state again leaves none; with `keep = true` the
temp file remains and holds exactly `total` bytes. -/
theorem c7_cleanup_and_retention (total block : Nat) (hb : 0 < block)
    (hbt : block ≤ total) (fs0 : FS) :
    (runMain total block false allOk fs0).1 = Except.ok () ∧
    (runMain total block false allOk fs0).2.tmpFile = none ∧
    (runMain total block false allOk (runMain total block false allOk fs0).2).2.tmpFile
      = none ∧
    (runMain total block true allOk fs0).1 = Except.ok () ∧
    (runMain total block true allOk fs0).2.tmpFile = some (writtenBytes total block) ∧
    (writtenBytes total block).length = total := by
  have hv : 0 < block ∧ block ≤ total := ⟨hb, hbt⟩
  simp [runMain, allOk, hv, writtenBytes_length total block hb]

/-- Witness for C7 at `total = 100`, `block = 10`. -/
theorem c7_cleanup_and_retention_witness :
    (0 < 10 ∧ 10 ≤ 100) ∧
    ((runMain 100 10 false allOk ⟨false, none⟩).1 = Except.ok () ∧
     (runMain 100 10 false allOk ⟨false, none⟩).2.tmpFile = none ∧
     (runMain 100 10 false allOk
        (runMain 100 10 false allOk ⟨false, none⟩).2).2.tmpFile = none ∧
     (runMain 100 10 true allOk ⟨false, none⟩).1 = Except.ok () ∧
     (runMain 100 10 true allOk ⟨false, none⟩).2.tmpFile = some (writtenBytes 100 10) ∧
     (writtenBytes 100 10).length = 100) :=
  ⟨by decide, c7_cleanup_and_retention 100 10 (by decide) (by decide) ⟨false, none⟩⟩

/-- Claim C8 (amended): every failure of directory creation, file open,
write, sync, or read propagates to the top level and terminates the process
with a non-zero exit (an `Except.error`), with no retry — but, contrary to
the claim as stated, a failure deleting the temp file is silently ignored
(`let _ = std::fs::remove_file(...)`, src/main.rs line 310) and the process
still exits successfully: see the counterexample. -/
theorem c8_io_error_propagation (total block : Nat) (keep : Bool)
    (o : Outcomes) (fs : FS)
    (hfail : o.createDirOk = false ∨ o.openWriteOk = false ∨ o.writeOk = false ∨
      o.syncOk = false ∨ o.openReadOk = false ∨ o.readOk = false) :
    ∃ msg, (runMain total block keep o fs).1 = Except.error msg := by
  unfold runMain
  split_ifs <;>
    first
      | exact ⟨_, rfl⟩
      | (rcases hfail with h | h | h | h | h | h <;> simp_all)

/-- Witness for C8 (amended): a failing write pass makes the run error out. -/
theorem c8_io_error_propagation_witness :
    ((⟨true, true, false, true, true, true, true⟩ : Outcomes).writeOk = false) ∧
    ∃ msg, (runMain 100 10 false ⟨true, true, false, true, true, true, true⟩
      ⟨false, none⟩).1 = Except.error msg :=
  ⟨rfl, c8_io_error_propagation 100 10 false _ _ (Or.inr (Or.inr (Or.inl rfl)))⟩

/-- Counterexample to C8 as stated: a run in which deleting the temp file
fails (all other I/O succeeding, `keep = false`) returns `Ok(())` — the
process exits zero and the temp file is still there; the deletion failure
is not fatal and does not propagate. -/
theorem c8_remove_failure_ignored :
    (runMain 100 10 false ⟨true, true, true, true, true, true, false⟩
      ⟨false, none⟩).1 = Except.ok () ∧
    (runMain 100 10 false ⟨true, true, true, true, true, true, false⟩
      ⟨false, none⟩).2.tmpFile ≠ none := by
  constructor
  · rfl
  · have h : (runMain 100 10 false ⟨true, true, true, true, true, true, false⟩
        ⟨false, none⟩).2.tmpFile = some (writtenBytes 100 10) := rfl
    rw [h]
    exact Option.some_ne_none _

/-- Claim C9: the byte content written to the temp file is a deterministic
function of `(total, block)` alone — the block buffer comes from the fixed
seed `0x5EED_CAFE` (`rngBuf`) — so any two successful runs with the same
configuration, whatever their environment (initial file-system state,
oracle for the unchecked delete), leave byte-identical contents: the same
block repeated `total / block` times, with a final chunk truncated to
`total % block` bytes. -/
theorem c9_deterministic_content (total block : Nat) (hb : 0 < block)
    (fs1 fs2 : FS) (o1 o2 : Outcomes)
    (h1 : (runMain total block true o1 fs1).1 = Except.ok ())
    (h2 : (runMain total block true o2 fs2).1 = Except.ok ()) :
    (runMain total block true o1 fs1).2.tmpFile
      = (runMain total block true o2 fs2).2.tmpFile ∧
    (runMain total block true o1 fs1).2.tmpFile
      = some ((List.replicate (total / block) (rngBuf block)).flatten
          ++ (rngBuf block).take (total % block)) := by
  have e1 := runMain_keep_ok_tmp total block o1 fs1 h1
  have e2 := runMain_keep_ok_tmp total block o2 fs2 h2
  refine ⟨?_, ?_⟩
  · rw [e1, e2]
  · rw [e1, writtenBytes_eq total block hb]

/-- Witness for C9 at `total = 16`, `block = 8`, with two different
environments (different initial states and different delete oracles). -/
theorem c9_deterministic_content_witness :
    (0 < 8) ∧
    (runMain 16 8 true allOk ⟨false, none⟩).1 = Except.ok () ∧
    (runMain 16 8 true ⟨true, true, true, true, true, true, false⟩
      ⟨true, some []⟩).1 = Except.ok () ∧
    ((runMain 16 8 true allOk ⟨false, none⟩).2.tmpFile
        = (runMain 16 8 true ⟨true, true, true, true, true, true, false⟩
            ⟨true, some []⟩).2.tmpFile ∧
      (runMain 16 8 true allOk ⟨false, none⟩).2.tmpFile
        = some ((List.replicate (16 / 8) (rngBuf 8)).flatten ++ (rngBuf 8).take (16 % 8))) :=
  ⟨by decide, rfl, rfl,
   c9_deterministic_content 16 8 (by decide) ⟨false, none⟩ ⟨true, some []⟩ allOk
     ⟨true, true, true, true, true, true, false⟩ rfl rfl⟩
